import Mathlib

/-!
# Verification of the Changelog-Transcripts download sorter

Shallow embedding of `src/utils/download_sorter.py`: the feed parser, the
identifier extractor, the filename normalizer, the file-to-episode matcher
and the year-based organizer, together with proofs of the specification's
testable properties.

Modelling conventions:
* Python strings are Lean `String`s (lists of characters); character
  classes (`\w`, `\s`, `str.lower`) are modelled at the ASCII level, which
  is where every identifier and extension handled by the tool lives.
* Python floats in the fuzzy-match score are modelled as exact rationals.
* The filesystem touched by `organize_podcasts` is modelled as a record of
  the flat source listing, the set of files inside year subdirectories and
  the set of existing year subdirectories; the outcome of an OS move call
  is an oracle parameter so that move failures can be expressed.
* XML parsing is modelled after the element tree stage: a feed is a list
  of items with optional title / pubDate / link / guid / enclosure fields,
  and `strptime`-style date parsing is an abstract parameter returning the
  publication year on success.
-/

/-- Python `\s` at the ASCII level: the whitespace characters recognised by
`str.strip`, `str.split` and the `\s` character class. -/
def pyIsSpace (c : Char) : Bool :=
  c = ' ' || c = '\t' || c = '\n' || c = '\x0d' || c = '\x0b' || c = '\x0c'

/-- Python `\w` at the ASCII level: letters, digits and underscore. -/
def isWordChar (c : Char) : Bool :=
  c.isAlpha || c.isDigit || c = '_'

/-- Python `str.strip()` : drop leading and trailing whitespace. -/
def pyStrip (l : List Char) : List Char :=
  (l.dropWhile pyIsSpace).rdropWhile pyIsSpace

/-- `str.strip()` on a `String`. -/
def pyStripS (s : String) : String :=
  String.mk (pyStrip s.data)

/-- Index of the last occurrence of `c` in `s`, Python `str.rfind` style:
`-1` when absent. -/
def rfindIdx (c : Char) (s : List Char) : Int :=
  match s.reverse.findIdx? (· = c) with
  | none => -1
  | some i => (s.length : Int) - 1 - i

/-- `os.path.splitext(p)[0]` (posix rules): cut at the last dot of the final
path component, unless every character of the component before that dot is
itself a dot. -/
def splitextRoot (s : List Char) : List Char :=
  let sepIndex := rfindIdx '/' s
  let dotIndex := rfindIdx '.' s
  if dotIndex > sepIndex then
    if (((s.drop (sepIndex + 1).toNat).take (dotIndex.toNat - (sepIndex + 1).toNat)).any
        (fun c => c ≠ '.')) then
      s.take dotIndex.toNat
    else s
  else s

/-- `pathlib.PurePath.suffix` for a bare file name: the part of the name from
its last dot on, provided that dot is neither the first nor the last
character; empty otherwise. -/
def pathSuffix (name : String) : String :=
  let s := name.data
  let i := rfindIdx '.' s
  if 0 < i ∧ i < (s.length : Int) - 1 then String.mk (s.drop i.toNat) else ""

/-- Collapse every run of whitespace to a single space,
Python `re.sub(r'\s+', ' ', name)`: a whitespace character directly
followed by another whitespace character is dropped, so each run survives
as a single `' '`. -/
def collapseWs : List Char → List Char
  | [] => []
  | [c] => if pyIsSpace c then [' '] else [c]
  | c :: c' :: cs =>
    if pyIsSpace c then
      if pyIsSpace c' then collapseWs (c' :: cs)
      else ' ' :: collapseWs (c' :: cs)
    else c :: collapseWs (c' :: cs)

/--
`normalize_filename` from `download_sorter.py`: strip the extension,
lowercase, delete every character outside `[\w\s-]`, collapse whitespace
runs to one space and trim.
-/
def normalize_filename (filename : String) : String :=
  let name := splitextRoot filename.data
  let name := name.map Char.toLower
  let name := name.filter (fun c => isWordChar c || pyIsSpace c || c = '-')
  let name := collapseWs name
  String.mk (pyStrip name)

/-- Drop `pre` from the front of `s` when it is literally there. -/
def dropStart? (pre s : List Char) : Option (List Char) :=
  if s.take pre.length = pre then some (s.drop pre.length) else none

/-- One `re.sub(r'^https?://(www\.)?', '', url)` step: remove a leading
`http://` or `https://` scheme and, when present right after it, `www.`. -/
def stripScheme (s : List Char) : List Char :=
  match (dropStart? "https://".data s).orElse (fun _ => dropStart? "http://".data s) with
  | none => s
  | some rest =>
    match dropStart? "www.".data rest with
    | some r2 => r2
    | none => rest

/-- `extract_url_identifier` from `download_sorter.py`: strip a leading
scheme plus optional `www.`, then strip trailing slashes. -/
def extract_url_identifier (url : String) : String :=
  String.mk ((stripScheme url.data).rdropWhile (· = '/'))

/-- The recognized audio extensions, in the order the matching regex lists
them. -/
def audio_extensions : List String := ["mp3", "m4a", "opus", "ogg", "wav", "flac"]

/-- When the lowercasing of `s` ends with `suf`, return `s` without that
suffix. -/
def dropSuffixCI (s suf : List Char) : Option (List Char) :=
  if suf.length ≤ s.length ∧ ((s.drop (s.length - suf.length)).map Char.toLower = suf) then
    some (s.take (s.length - suf.length))
  else none

/--
The bracketed-identifier scan of `match_file_to_episode`:
`re.search(r'\[([^\]]+)\]\.(mp3|m4a|opus|ogg|wav|flac)$', filename, re.IGNORECASE)`,
returning group 1.  A Python `$` also matches just before one trailing
newline, so one final `'\n'` is ignored.  The leftmost match starts at the
first `'['` of the `']'`-free run that precedes the closing `']'`.
-/
def extractBracketToken (filename : String) : Option String :=
  let s := if filename.data.getLast? = some '\n' then filename.data.dropLast else filename.data
  match audio_extensions.findSome? (fun ext => dropSuffixCI s ('.' :: ext.data)) with
  | none => none
  | some body =>
    match body.getLast? with
    | some ']' =>
      let run := ((body.dropLast.reverse.takeWhile (fun c => c ≠ ']')).reverse)
      match run.dropWhile (fun c => c ≠ '[') with
      | [] => none
      | _ :: tok => if tok = [] then none else some (String.mk tok)
    | _ => none

/-- `.replace('⧸', '/').replace('：', ':')` : undo the Unicode substitutes
used for characters that cannot appear in filenames. -/
def normalizeSubst (s : String) : String :=
  String.mk (s.data.map (fun c => if c = '⧸' then '/' else if c = '：' then ':' else c))

/-- Python `a in b` for strings: substring test. -/
def isSubstr (a b : String) : Bool :=
  decide (a.data <:+: b.data)

/-- One episode record as built by `parse_rss_feed` (the publication
timestamp is kept only through its year, the sole component later code
reads). -/
structure Episode where
  title : String
  year : Int
  url : String
  guid : String
  enclosure_url : String
deriving DecidableEq, Repr

/-- The guid comparison of the bracket tier: only attempted on a non-empty
guid; the token equals the normalized guid or either contains the other. -/
def guidCheck (tok : String) (e : Episode) : Bool :=
  e.guid ≠ "" &&
    (tok = normalizeSubst e.guid || isSubstr tok (normalizeSubst e.guid) ||
      isSubstr (normalizeSubst e.guid) tok)

/-- The canonical-URL comparison of the bracket tier: substring relation in
either direction with the extracted URL identifier (no emptiness guard). -/
def urlCheck (tok : String) (e : Episode) : Bool :=
  isSubstr tok (extract_url_identifier e.url) || isSubstr (extract_url_identifier e.url) tok

/-- The enclosure-URL comparison of the bracket tier: only attempted on a
non-empty enclosure URL; substring relation in either direction. -/
def enclosureCheck (tok : String) (e : Episode) : Bool :=
  e.enclosure_url ≠ "" &&
    (isSubstr tok (extract_url_identifier e.enclosure_url) ||
      isSubstr (extract_url_identifier e.enclosure_url) tok)

/-- An episode is accepted by the bracket tier when any of the three checks
accepts it. -/
def bracketMatches (tok : String) (e : Episode) : Bool :=
  guidCheck tok e || urlCheck tok e || enclosureCheck tok e

/-- The bracket-tier loop of `match_file_to_episode`: walk the feed in
order and return at the first episode one of the three checks accepts. -/
def bracketLoop (tok : String) : List Episode → Option Episode
  | [] => none
  | e :: rest =>
    if guidCheck tok e then some e
    else if urlCheck tok e then some e
    else if enclosureCheck tok e then some e
    else bracketLoop tok rest

/-- Worker for `pyWords`: `acc` holds the reversed characters of the word
currently being read. -/
def pyWordsAux : List Char → List Char → List (List Char)
  | [], acc => if acc = [] then [] else [acc.reverse]
  | c :: cs, acc =>
    if pyIsSpace c then
      if acc = [] then pyWordsAux cs [] else acc.reverse :: pyWordsAux cs []
    else pyWordsAux cs (c :: acc)

/-- Python `str.split()`: the whitespace-separated words, no empties. -/
def pyWords (l : List Char) : List (List Char) :=
  pyWordsAux l []

/-- The set of distinct words of a normalized string, Python
`set(s.split())`. -/
def wordSet (s : String) : Finset String :=
  ((pyWords s.data).map String.mk).toFinset

/-- The fuzzy word-overlap score of one episode against the already
normalized filename: shared distinct words over distinct title words, `0`
for a title with no words (such an episode is never selected because the
threshold is strictly positive). -/
def fuzzyScore (filename : String) (e : Episode) : ℚ :=
  let fileWords := wordSet (normalize_filename filename)
  let titleWords := wordSet (normalize_filename e.title)
  if titleWords = ∅ then 0
  else mkRat ((fileWords ∩ titleWords).card : Int) titleWords.card

/-- The fallback loop of `match_file_to_episode`: keep the best score so
far, replacing it only on a strictly greater score that also exceeds `1/2`;
episodes whose normalized title has no words are skipped. -/
def fuzzyGo (filename : String) : List Episode → Option Episode → ℚ → Option Episode
  | [], best, _ => best
  | e :: rest, best, bestScore =>
    if wordSet (normalize_filename e.title) = ∅ then fuzzyGo filename rest best bestScore
    else
      let score := fuzzyScore filename e
      if score > bestScore ∧ score > mkRat 1 2 then fuzzyGo filename rest (some e) score
      else fuzzyGo filename rest best bestScore

/--
`match_file_to_episode` from `download_sorter.py`: try the bracketed
identifier against guid, canonical URL and enclosure URL of each episode in
feed order, returning the first acceptance; otherwise fall back to the
fuzzy title-overlap search.
-/
def match_file_to_episode (filename : String) (episodes : List Episode) : Option Episode :=
  match extractBracketToken filename with
  | some rawTok =>
    let tok := normalizeSubst rawTok
    match bracketLoop tok episodes with
    | some e => some e
    | none => fuzzyGo filename episodes none 0
  | none => fuzzyGo filename episodes none 0

/-- One `<item>` of the feed after XML parsing: each field is `some` when
the corresponding element (attribute, for the enclosure URL) is present,
carrying its raw text (`""` for an empty or missing text node). -/
structure FeedItem where
  title : Option String
  pubDate : Option String
  link : Option String
  guid : Option String
  enclosureUrl : Option String
deriving DecidableEq, Repr

/--
The item body of `parse_rss_feed` from `download_sorter.py` after the XML
stage: an item missing the title or pubDate element is skipped; the
stripped date string is handed to the date parser (the `strptime` format
list with ISO fallback, abstracted here as `parseDate`, returning the
publication year) and the item is skipped when no format succeeds; link,
guid and enclosure URL fall back to the empty string.
-/
def parseItem (parseDate : String → Option Int) (it : FeedItem) : Option Episode :=
  match it.title, it.pubDate with
  | some t, some d =>
    match parseDate (pyStripS d) with
    | some year =>
      some { title := pyStripS t
             year := year
             url := (it.link.map pyStripS).getD ""
             guid := (it.guid.map pyStripS).getD ""
             enclosure_url := it.enclosureUrl.getD "" }
    | none => none
  | _, _ => none

/-- The per-feed loop of `parse_rss_feed`: keep the parseable items. -/
def parse_rss_feed (parseDate : String → Option Int) (items : List FeedItem) : List Episode :=
  items.filterMap (parseItem parseDate)

/-- The filesystem state `organize_podcasts` touches: the flat listing of
the podcast folder, the files inside year subdirectories, and the year
subdirectories that exist. -/
structure FS where
  src : List String
  dest : List (Int × String)
  dirs : List Int
deriving DecidableEq, Repr

/-- The run report: the summary counts printed before moving plus the
move-phase counters (left at zero by a dry run, which never reaches the
move phase). -/
structure Report where
  total : Nat
  matched : Nat
  unmatched : Nat
  perYear : List (Int × Nat)
  moved : Nat
  skipped : Nat
  errors : Nat
deriving DecidableEq, Repr

/-- `f.suffix.lower() in audio_extensions`. -/
def hasAudioExt (name : String) : Bool :=
  audio_extensions.any (fun e => String.mk ((pathSuffix name).data.map Char.toLower) = "." ++ e)

/-- The matched (file, episode) pairs, in directory order. -/
def matchedPairs (episodes : List Episode) (files : List String) : List (String × Episode) :=
  files.filterMap (fun f => (match_file_to_episode f episodes).map (fun e => (f, e)))

/-- The files no episode matched, in directory order. -/
def unmatchedFiles (episodes : List Episode) (files : List String) : List String :=
  files.filter (fun f => (match_file_to_episode f episodes).isNone)

/-- Insert a year into an ascending list. -/
def insertYear (y : Int) : List Int → List Int
  | [] => [y]
  | z :: zs => if y ≤ z then y :: z :: zs else z :: insertYear y zs

/-- `sorted(year_files.keys())`: the distinct years of the matched pairs in
ascending order. -/
def sortedYears (pairs : List (String × Episode)) : List Int :=
  ((pairs.map (fun p => p.2.year)).dedup).foldr insertYear []

/-- The `(file, episode)` list of one year group, in directory order (the
order `defaultdict` appends). -/
def pairsForYear (pairs : List (String × Episode)) (y : Int) : List (String × Episode) :=
  pairs.filter (fun p => p.2.year = y)

/-- `year_folder.mkdir(exist_ok=True)`. -/
def mkdirYear (fs : FS) (y : Int) : FS :=
  { fs with dirs := if y ∈ fs.dirs then fs.dirs else y :: fs.dirs }

/-- Move one matched file into its year folder: skip when the destination
name already exists, otherwise attempt the move, which the oracle `moveOk`
may fail (an `OSError` caught by the loop).  State is
`(filesystem, moved, skipped, errors)`. -/
def movePair (moveOk : Int → String → Bool) (y : Int) (st : FS × Nat × Nat × Nat)
    (p : String × Episode) : FS × Nat × Nat × Nat :=
  if (y, p.1) ∈ st.1.dest then (st.1, st.2.1, st.2.2.1 + 1, st.2.2.2)
  else if moveOk y p.1 then
    ({ st.1 with src := st.1.src.erase p.1, dest := (y, p.1) :: st.1.dest },
      st.2.1 + 1, st.2.2.1, st.2.2.2)
  else (st.1, st.2.1, st.2.2.1, st.2.2.2 + 1)

/-- The inner loop over one year's file list. -/
def moveFiles (moveOk : Int → String → Bool) (y : Int) :
    List (String × Episode) → FS × Nat × Nat × Nat → FS × Nat × Nat × Nat
  | [], st => st
  | p :: ps, st => moveFiles moveOk y ps (movePair moveOk y st p)

/-- The outer loop over the year groups in ascending year order: create
the year folder, then process its files. -/
def moveGroups (moveOk : Int → String → Bool) :
    List (Int × List (String × Episode)) → FS × Nat × Nat × Nat → FS × Nat × Nat × Nat
  | [], st => st
  | (y, ps) :: rest, st =>
    moveGroups moveOk rest (moveFiles moveOk y ps (mkdirYear st.1 y, st.2))

/-- The audio files of the podcast folder (top level, recognized
extensions only). -/
def orgFiles (fs : FS) : List String :=
  fs.src.filter hasAudioExt

/-- The matched pairs of one run. -/
def orgPairs (episodes : List Episode) (fs : FS) : List (String × Episode) :=
  matchedPairs episodes (orgFiles fs)

/-- `sorted(year_files.items())`: the year groups of one run in ascending
year order. -/
def orgGroups (episodes : List Episode) (fs : FS) : List (Int × List (String × Episode)) :=
  (sortedYears (orgPairs episodes fs)).map
    (fun y => (y, pairsForYear (orgPairs episodes fs) y))

/--
`organize_podcasts` from `download_sorter.py` (the part after feed
parsing): refuse an empty episode list (the script exits), list the audio
files of the folder, match each to an episode, build the year groups and
the summary, and — unless this is a dry run — create each year folder and
move its files, skipping occupied destinations and counting failed moves.
-/
def organize_podcasts (episodes : List Episode) (fs : FS) (moveOk : Int → String → Bool)
    (dry_run : Bool) : Option (Report × FS) :=
  if episodes = [] then none
  else
    let files := orgFiles fs
    let unmatched := unmatchedFiles episodes files
    let groups := orgGroups episodes fs
    let report0 : Report :=
      { total := files.length
        matched := files.length - unmatched.length
        unmatched := unmatched.length
        perYear := groups.map (fun g => (g.1, g.2.length))
        moved := 0, skipped := 0, errors := 0 }
    if dry_run then some (report0, fs)
    else
      let st := moveGroups moveOk groups (fs, 0, 0, 0)
      some ({ report0 with moved := st.2.1, skipped := st.2.2.1, errors := st.2.2.2 }, st.1)

/-! ## Theorems -/

/-- Does the string still begin with a scheme the stripping regex would
remove again? -/
def hasScheme (s : String) : Bool :=
  (dropStart? "https://".data s.data).isSome || (dropStart? "http://".data s.data).isSome

theorem stripScheme_of_not_hasScheme (s : String) (h : hasScheme s = false) :
    stripScheme s.data = s.data := by
  unfold hasScheme at h
  unfold stripScheme
  rcases h1 : dropStart? "https://".data s.data with _ | r1
  · rcases h2 : dropStart? "http://".data s.data with _ | r2
    · simp [Option.orElse, h1, h2]
    · simp [h1, h2] at h
  · simp [h1] at h

/--
C4 counterexample: `extract_url_identifier` is not idempotent.  On
`"http://http://a"` one application strips only the outer scheme, leaving
`"http://a"`, and a second application strips again, yielding `"a"`.
-/
theorem extract_url_identifier_not_idempotent :
    extract_url_identifier (extract_url_identifier "http://http://a") ≠
      extract_url_identifier "http://http://a" := by decide

/--
C4 (amended): `extract_url_identifier` is idempotent on every input whose
single application's result does not itself begin with `http://` or
`https://` — that is, unless the URL embeds a second scheme behind the
first.
-/
theorem extract_url_identifier_idempotent_of_no_scheme (url : String)
    (h : hasScheme (extract_url_identifier url) = false) :
    extract_url_identifier (extract_url_identifier url) = extract_url_identifier url := by
  unfold extract_url_identifier at *
  rw [show (String.mk ((stripScheme url.data).rdropWhile (fun c => c = '/'))).data
        = (stripScheme url.data).rdropWhile (fun c => c = '/') from rfl,
    stripScheme_of_not_hasScheme _ h]
  rw [show (String.mk ((stripScheme url.data).rdropWhile (fun c => c = '/'))).data
        = (stripScheme url.data).rdropWhile (fun c => c = '/') from rfl]
  rw [List.rdropWhile_idempotent]

/-- C4 witness: a realistic URL for which the amended idempotence applies. -/
theorem extract_url_identifier_idempotent_witness :
    hasScheme (extract_url_identifier "https://www.changelog.com/1/2677/") = false ∧
      extract_url_identifier (extract_url_identifier "https://www.changelog.com/1/2677/") =
        extract_url_identifier "https://www.changelog.com/1/2677/" :=
  ⟨by decide, extract_url_identifier_idempotent_of_no_scheme _ (by decide)⟩

/-- The condition under which `parseItem` keeps an item. -/
theorem parseItem_isSome (parseDate : String → Option Int) (it : FeedItem) :
    (parseItem parseDate it).isSome =
      (it.title.isSome && (it.pubDate.elim false (fun d => (parseDate (pyStripS d)).isSome))) := by
  rcases it with ⟨t, d, l, g, u⟩
  rcases t with _ | t <;> rcases d with _ | d <;> simp [parseItem, Option.elim]
  rcases parseDate (pyStripS d) with _ | y <;> simp

theorem length_filterMap_eq_iff {α β : Type} (f : α → Option β) (l : List α) :
    ((l.filterMap f).length = l.length) ↔ ∀ a ∈ l, (f a).isSome := by
  induction l with
  | nil => simp
  | cons a l ih =>
    rcases h : f a with _ | b
    · simp only [List.filterMap_cons, h, List.length_cons]
      constructor
      · intro hlen
        have hle := List.length_filterMap_le f l
        omega
      · intro hall
        have := hall a (by simp)
        simp [h] at this
    · simp only [List.filterMap_cons, h, List.length_cons, Nat.succ.injEq, ih]
      constructor
      · intro hall x hx
        rcases List.mem_cons.mp hx with rfl | hx
        · simp [h]
        · exact hall x hx
      · intro hall x hx
        exact hall x (List.mem_cons_of_mem a hx)

/--
C5: for every feed, the number of episodes `parse_rss_feed` returns is at
most the number of items, with equality exactly when every item has a
title element and a pubDate element whose stripped text the date parser
accepts.
-/
theorem parse_rss_feed_length (parseDate : String → Option Int) (items : List FeedItem) :
    (parse_rss_feed parseDate items).length ≤ items.length ∧
      ((parse_rss_feed parseDate items).length = items.length ↔
        ∀ it ∈ items, it.title.isSome ∧
          ∃ d, it.pubDate = some d ∧ (parseDate (pyStripS d)).isSome) := by
  unfold parse_rss_feed
  refine ⟨List.length_filterMap_le _ _, ?_⟩
  rw [length_filterMap_eq_iff]
  constructor
  · intro h it hit
    have := h it hit
    rw [parseItem_isSome] at this
    rcases it with ⟨t, d, l, g, u⟩
    rcases t with _ | t <;> rcases d with _ | d <;> simp_all [Option.elim]
  · intro h it hit
    obtain ⟨ht, d, hd, hpd⟩ := h it hit
    rw [parseItem_isSome, ht, hd]
    simpa [Option.elim] using hpd

/-- C5 witness: the bound instantiated at a concrete one-item feed. -/
theorem parse_rss_feed_length_witness :
    (parse_rss_feed (fun s => if s = "2020" then some 2020 else none)
        [⟨some "a", some "2020", none, none, none⟩]).length ≤
      ([⟨some "a", some "2020", none, none, none⟩] : List FeedItem).length :=
  (parse_rss_feed_length (fun s => if s = "2020" then some 2020 else none)
    [⟨some "a", some "2020", none, none, none⟩]).1

/-- The bracket-tier loop returns exactly the first episode, in feed
order, accepted by one of the three checks. -/
theorem bracketLoop_eq_find (tok : String) (episodes : List Episode) :
    bracketLoop tok episodes = episodes.find? (fun e => bracketMatches tok e) := by
  induction episodes with
  | nil => rfl
  | cons e rest ih =>
    by_cases hg : guidCheck tok e
    · simp [bracketLoop, List.find?, bracketMatches, hg]
    · by_cases hu : urlCheck tok e
      · simp [bracketLoop, List.find?, bracketMatches, hg, hu]
      · by_cases he : enclosureCheck tok e
        · simp [bracketLoop, List.find?, bracketMatches, hg, hu, he]
        · simp [bracketLoop, List.find?, bracketMatches, hg, hu, he, ih]

/-- Modelled from the claim's wording for C1, for comparison with the
code's `bracketMatches`: the three comparisons with no emptiness guard on
the guid or the enclosure URL. -/
def claimBracketPred (tok : String) (e : Episode) : Bool :=
  (tok = normalizeSubst e.guid || isSubstr tok (normalizeSubst e.guid) ||
      isSubstr (normalizeSubst e.guid) tok)
  || (isSubstr tok (extract_url_identifier e.url) || isSubstr (extract_url_identifier e.url) tok)
  || (isSubstr tok (extract_url_identifier e.enclosure_url) ||
      isSubstr (extract_url_identifier e.enclosure_url) tok)

/--
C1 counterexample: with token `"abc"`, the episode with empty guid, empty
enclosure URL and unrelated canonical URL `"zz"` satisfies comparison (a)
as literally stated (the empty guid is contained in the token), yet the
matcher does not return it — the code only runs the guid and enclosure
comparisons on non-empty strings, so the file matches nothing at all.
-/
theorem match_first_satisfying_counterexample :
    claimBracketPred "abc" ⟨"", 2020, "zz", "", ""⟩ = true ∧
      extractBracketToken "e [abc].mp3" = some "abc" ∧
      match_file_to_episode "e [abc].mp3" [⟨"", 2020, "zz", "", ""⟩] = none := by decide

/--
C1 (amended): for every filename carrying a trailing bracketed token
before a recognized audio extension, the matcher returns the first episode
in feed order accepted by: (a) the guid comparison, run only when the guid
is non-empty — token equal to the normalized guid or either containing the
other; (b) the substring comparison either direction with the normalized
canonical-URL identifier; (c) the substring comparison either direction
with the normalized enclosure-URL identifier, run only when the enclosure
URL is non-empty.  First match wins, not best match.
-/
theorem match_first_satisfying (filename : String) (episodes : List Episode)
    (tok : String) (e : Episode)
    (hex : extractBracketToken filename = some tok)
    (hfind : episodes.find? (fun e => bracketMatches (normalizeSubst tok) e) = some e) :
    match_file_to_episode filename episodes = some e := by
  unfold match_file_to_episode
  rw [hex]
  simp only [bracketLoop_eq_find, hfind]

/-- C1 witness: the second episode is the first (and only) one whose guid
accepts the token. -/
theorem match_first_satisfying_witness :
    match_file_to_episode "x [b].mp3" [⟨"ta", 2020, "u/a", "a", ""⟩, ⟨"tb", 2021, "u/b", "b", ""⟩]
      = some ⟨"tb", 2021, "u/b", "b", ""⟩ :=
  match_first_satisfying _ _ "b" _ (by decide) (by decide)

/--
C3: an episode whose canonical URL is the empty string always passes the
bracket tier's URL substring test (the empty identifier is a substring of
every token), so whenever the filename carries a bracketed token and no
earlier episode is accepted by any check, the matcher returns the first
such empty-URL episode — whatever the token says.
-/
theorem empty_url_matches_any_token (filename : String) (tok : String)
    (l1 l2 : List Episode) (e : Episode)
    (hex : extractBracketToken filename = some tok)
    (hurl : e.url = "")
    (hearlier : ∀ e' ∈ l1, bracketMatches (normalizeSubst tok) e' = false) :
    urlCheck (normalizeSubst tok) e = true ∧
      match_file_to_episode filename (l1 ++ e :: l2) = some e := by
  have hempty : extract_url_identifier "" = "" := rfl
  have hsub : ∀ t : String, isSubstr "" t = true := by
    intro t
    unfold isSubstr
    rw [decide_eq_true_eq]
    exact List.nil_infix
  have hcheck : urlCheck (normalizeSubst tok) e = true := by
    unfold urlCheck
    rw [hurl, hempty, hsub]
    simp
  refine ⟨hcheck, ?_⟩
  have hbm : bracketMatches (normalizeSubst tok) e = true := by
    unfold bracketMatches
    rw [hcheck]
    simp
  have hnone : l1.find? (fun e => bracketMatches (normalizeSubst tok) e) = none :=
    List.find?_eq_none.mpr (fun x hx => by simp [hearlier x hx])
  have hfind : (l1 ++ e :: l2).find? (fun e => bracketMatches (normalizeSubst tok) e) = some e := by
    rw [List.find?_append, hnone]
    simp [List.find?, hbm]
  unfold match_file_to_episode
  rw [hex]
  simp only [bracketLoop_eq_find, hfind]

/-- C3 witness: an episode stored with no `<link>`; the token names a
different show entirely, and still this episode is returned. -/
theorem empty_url_matches_any_token_witness :
    urlCheck (normalizeSubst "xyz") ⟨"te", 2021, "", "", ""⟩ = true ∧
      match_file_to_episode "x [xyz].mp3"
        ([⟨"ta", 2020, "u/a", "a", ""⟩] ++ ⟨"te", 2021, "", "", ""⟩ :: []) =
        some ⟨"te", 2021, "", "", ""⟩ :=
  empty_url_matches_any_token "x [xyz].mp3" "xyz" [⟨"ta", 2020, "u/a", "a", ""⟩] []
    ⟨"te", 2021, "", "", ""⟩ (by decide) rfl (by decide)

theorem fuzzyScore_nonneg (filename : String) (e : Episode) : 0 ≤ fuzzyScore filename e := by
  unfold fuzzyScore
  by_cases h : wordSet (normalize_filename e.title) = ∅
  · simp [h]
  · rw [if_neg h, Rat.mkRat_eq_div]
    positivity

theorem half_pos_mkRat : (0 : ℚ) < mkRat 1 2 := by decide

/-- Where `fuzzyGo` can land, starting from an invariant-respecting state:
either the starting best survives and nothing in the list exceeds its
score, or the result is the earliest episode of the list attaining a score
above both the threshold and the starting score, with nothing before it as
high and nothing after it higher. -/
theorem fuzzyGo_eq_some (filename : String) :
    ∀ (l : List Episode) (b : Option Episode) (bs : ℚ) (e : Episode),
      ((b = none ∧ bs = 0) ∨
       (∃ eb, b = some eb ∧ bs = fuzzyScore filename eb ∧ mkRat 1 2 < bs)) →
      fuzzyGo filename l b bs = some e →
      (b = some e ∧ ∀ x ∈ l, fuzzyScore filename x ≤ bs) ∨
      (∃ l1 l2, l = l1 ++ e :: l2 ∧ mkRat 1 2 < fuzzyScore filename e ∧
        bs < fuzzyScore filename e ∧
        (∀ x ∈ l1, fuzzyScore filename x < fuzzyScore filename e) ∧
        (∀ x ∈ l2, fuzzyScore filename x ≤ fuzzyScore filename e)) := by
  intro l
  induction l with
  | nil =>
    intro b bs e _ hrun
    exact Or.inl ⟨hrun, by simp⟩
  | cons x rest ih =>
    intro b bs e hinv hrun
    have hbs0 : 0 ≤ bs := by
      rcases hinv with ⟨_, rfl⟩ | ⟨eb, _, rfl, hh⟩
      · exact le_refl 0
      · exact le_of_lt (lt_trans half_pos_mkRat hh)
    by_cases hemp : wordSet (normalize_filename x.title) = ∅
    · have hx0 : fuzzyScore filename x = 0 := by unfold fuzzyScore; simp [hemp]
      rw [fuzzyGo, if_pos hemp] at hrun
      rcases ih b bs e hinv hrun with ⟨hb, hall⟩ | ⟨l1, l2, hsplit, hhalf, hbs, hbefore, hafter⟩
      · refine Or.inl ⟨hb, fun y hy => ?_⟩
        rcases List.mem_cons.mp hy with rfl | hy
        · rw [hx0]; exact hbs0
        · exact hall y hy
      · refine Or.inr ⟨x :: l1, l2, by rw [hsplit, List.cons_append], hhalf, hbs, ?_, hafter⟩
        intro y hy
        rcases List.mem_cons.mp hy with rfl | hy
        · rw [hx0]; exact lt_trans half_pos_mkRat hhalf
        · exact hbefore y hy
    · rw [fuzzyGo, if_neg hemp] at hrun
      by_cases hadopt : fuzzyScore filename x > bs ∧ fuzzyScore filename x > mkRat 1 2
      · rw [if_pos hadopt] at hrun
        rcases ih (some x) (fuzzyScore filename x) e
            (Or.inr ⟨x, rfl, rfl, hadopt.2⟩) hrun with
          ⟨hb, hall⟩ | ⟨l1, l2, hsplit, hhalf, hbs, hbefore, hafter⟩
        · obtain rfl : x = e := Option.some.inj hb
          exact Or.inr ⟨[], rest, by simp, hadopt.2, hadopt.1, by simp, hall⟩
        · refine Or.inr ⟨x :: l1, l2, by rw [hsplit, List.cons_append], hhalf,
            lt_trans hadopt.1 hbs, ?_, hafter⟩
          intro y hy
          rcases List.mem_cons.mp hy with rfl | hy
          · exact hbs
          · exact hbefore y hy
      · rw [if_neg hadopt] at hrun
        have hxle : fuzzyScore filename x ≤ bs ∨ fuzzyScore filename x ≤ mkRat 1 2 := by
          rcases not_and_or.mp hadopt with h | h
          · exact Or.inl (le_of_not_lt h)
          · exact Or.inr (le_of_not_lt h)
        rcases ih b bs e hinv hrun with ⟨hb, hall⟩ | ⟨l1, l2, hsplit, hhalf, hbs, hbefore, hafter⟩
        · refine Or.inl ⟨hb, fun y hy => ?_⟩
          rcases List.mem_cons.mp hy with rfl | hy
          · rcases hxle with h | h
            · exact h
            · rcases hinv with ⟨hbnone, _⟩ | ⟨eb, _, _, hh⟩
              · rw [hb] at hbnone; exact absurd hbnone (by simp)
              · exact le_of_lt (lt_of_le_of_lt h hh)
          · exact hall y hy
        · refine Or.inr ⟨x :: l1, l2, by rw [hsplit, List.cons_append], hhalf, hbs, ?_, hafter⟩
          intro y hy
          rcases List.mem_cons.mp hy with rfl | hy
          · rcases hxle with h | h
            · exact lt_of_le_of_lt h hbs
            · exact lt_of_le_of_lt h hhalf
          · exact hbefore y hy

/-- `fuzzyGo` answers `none` only from a `none` start, and only when no
episode beats both the running score and the threshold. -/
theorem fuzzyGo_eq_none (filename : String) :
    ∀ (l : List Episode) (b : Option Episode) (bs : ℚ),
      fuzzyGo filename l b bs = none →
      b = none ∧ ∀ x ∈ l, fuzzyScore filename x ≤ bs ∨ fuzzyScore filename x ≤ mkRat 1 2 := by
  intro l
  induction l with
  | nil => exact fun b bs h => ⟨h, by simp⟩
  | cons x rest ih =>
    intro b bs hrun
    by_cases hemp : wordSet (normalize_filename x.title) = ∅
    · have hx0 : fuzzyScore filename x = 0 := by unfold fuzzyScore; simp [hemp]
      rw [fuzzyGo, if_pos hemp] at hrun
      obtain ⟨hb, hall⟩ := ih b bs hrun
      refine ⟨hb, fun y hy => ?_⟩
      rcases List.mem_cons.mp hy with rfl | hy
      · exact Or.inr (by rw [hx0]; exact le_of_lt half_pos_mkRat)
      · exact hall y hy
    · rw [fuzzyGo, if_neg hemp] at hrun
      by_cases hadopt : fuzzyScore filename x > bs ∧ fuzzyScore filename x > mkRat 1 2
      · rw [if_pos hadopt] at hrun
        obtain ⟨hb, _⟩ := ih _ _ hrun
        exact absurd hb (by simp)
      · rw [if_neg hadopt] at hrun
        obtain ⟨hb, hall⟩ := ih b bs hrun
        refine ⟨hb, fun y hy => ?_⟩
        rcases List.mem_cons.mp hy with rfl | hy
        · rcases not_and_or.mp hadopt with h | h
          · exact Or.inl (le_of_not_lt h)
          · exact Or.inr (le_of_not_lt h)
        · exact hall y hy

/-- When no episode clears the threshold, the fallback reports no match. -/
theorem fuzzyGo_none_of_all_le (filename : String) :
    ∀ l : List Episode, (∀ x ∈ l, fuzzyScore filename x ≤ mkRat 1 2) →
      fuzzyGo filename l none 0 = none := by
  intro l
  induction l with
  | nil => intro _; rfl
  | cons x rest ih =>
    intro hall
    by_cases hemp : wordSet (normalize_filename x.title) = ∅
    · rw [fuzzyGo, if_pos hemp]
      exact ih (fun y hy => hall y (List.mem_cons_of_mem x hy))
    · rw [fuzzyGo, if_neg hemp, if_neg]
      · exact ih (fun y hy => hall y (List.mem_cons_of_mem x hy))
      · intro ⟨_, hgt⟩
        exact absurd (hall x (by simp)) (not_le_of_lt hgt)

/--
C2: when the filename has no bracketed token, or the token is accepted by
no episode, the matcher scores every episode by shared distinct words over
the episode title's distinct words and returns the episode with the
highest score strictly above one half; ties go to the earliest episode in
feed order (a later equal score never displaces the current best); it
returns none exactly when no episode's score exceeds one half — in
particular whenever every title normalizes to zero words, since such
episodes score zero.
-/
theorem fuzzy_best_match (filename : String) (episodes : List Episode)
    (h : extractBracketToken filename = none ∨
      ∃ tok, extractBracketToken filename = some tok ∧
        episodes.find? (fun e => bracketMatches (normalizeSubst tok) e) = none) :
    (match_file_to_episode filename episodes = none ↔
      ∀ e ∈ episodes, fuzzyScore filename e ≤ mkRat 1 2) ∧
    (∀ e, match_file_to_episode filename episodes = some e →
      mkRat 1 2 < fuzzyScore filename e ∧
      ∃ l1 l2, episodes = l1 ++ e :: l2 ∧
        (∀ x ∈ l1, fuzzyScore filename x < fuzzyScore filename e) ∧
        (∀ x ∈ l2, fuzzyScore filename x ≤ fuzzyScore filename e)) := by
  have hmatch : match_file_to_episode filename episodes = fuzzyGo filename episodes none 0 := by
    unfold match_file_to_episode
    rcases h with hnone | ⟨tok, hsome, hfind⟩
    · rw [hnone]
    · rw [hsome]
      simp only [bracketLoop_eq_find, hfind]
  rw [hmatch]
  constructor
  · constructor
    · intro hrun e he
      obtain ⟨_, hall⟩ := fuzzyGo_eq_none filename episodes none 0 hrun
      rcases hall e he with h0 | hhalf
      · exact le_trans h0 (le_of_lt half_pos_mkRat)
      · exact hhalf
    · exact fuzzyGo_none_of_all_le filename episodes
  · intro e hrun
    rcases fuzzyGo_eq_some filename episodes none 0 e (Or.inl ⟨rfl, rfl⟩) hrun with
      ⟨hb, _⟩ | ⟨l1, l2, hsplit, hhalf, _, hbefore, hafter⟩
    · exact absurd hb (by simp)
    · exact ⟨hhalf, l1, l2, hsplit, hbefore, hafter⟩

/-- C2 witness: with no bracketed token, the earliest of two fully
overlapping titles wins, and a sub-threshold feed yields none. -/
theorem fuzzy_best_match_witness :
    mkRat 1 2 < fuzzyScore "go time 123 generics.mp3" ⟨"Go Time 123: Generics", 2019, "", "", ""⟩ ∧
      ∃ l1 l2,
        ([⟨"Go Time 123: Generics", 2019, "", "", ""⟩, ⟨"Go Time 124: Modules", 2019, "", "", ""⟩]
          : List Episode) = l1 ++ ⟨"Go Time 123: Generics", 2019, "", "", ""⟩ :: l2 ∧
        (∀ x ∈ l1, fuzzyScore "go time 123 generics.mp3" x <
          fuzzyScore "go time 123 generics.mp3" ⟨"Go Time 123: Generics", 2019, "", "", ""⟩) ∧
        (∀ x ∈ l2, fuzzyScore "go time 123 generics.mp3" x ≤
          fuzzyScore "go time 123 generics.mp3" ⟨"Go Time 123: Generics", 2019, "", "", ""⟩) :=
  (fuzzy_best_match "go time 123 generics.mp3"
      [⟨"Go Time 123: Generics", 2019, "", "", ""⟩, ⟨"Go Time 124: Modules", 2019, "", "", ""⟩]
      (Or.inl (by decide))).2
    ⟨"Go Time 123: Generics", 2019, "", "", ""⟩ (by decide)

theorem toNat_ofNat_valid (n : Nat) (h : n.isValidChar) : (Char.ofNat n).toNat = n := by
  rw [Char.ofNat, dif_pos h]
  rfl

/-- ASCII lowering never produces an ASCII uppercase letter. -/
theorem toLower_not_ascii_upper (c : Char) :
    ¬ (65 ≤ (Char.toLower c).toNat ∧ (Char.toLower c).toNat ≤ 90) := by
  unfold Char.toLower
  by_cases h : c.toNat ≥ 65 ∧ c.toNat ≤ 90
  · rw [if_pos h]
    have hvalid : (c.toNat + 32).isValidChar := Or.inl (by omega)
    rw [toNat_ofNat_valid _ hvalid]
    omega
  · rw [if_neg h]
    exact h

theorem mem_collapseWs {c : Char} :
    ∀ {l : List Char}, c ∈ collapseWs l → c = ' ' ∨ (c ∈ l ∧ pyIsSpace c = false) := by
  intro l
  induction l using collapseWs.induct with
  | case1 => intro h; simp [collapseWs] at h
  | case2 x hx =>
    intro h
    rw [collapseWs, if_pos hx] at h
    simp at h
    exact Or.inl h
  | case3 x hx =>
    intro h
    rw [collapseWs, if_neg hx] at h
    simp at h
    subst h
    exact Or.inr ⟨by simp, by simpa using hx⟩
  | case4 x x' cs hx hx' ih =>
    intro h
    rw [collapseWs, if_pos hx, if_pos hx'] at h
    rcases ih h with h | ⟨hm, hs⟩
    · exact Or.inl h
    · exact Or.inr ⟨List.mem_cons_of_mem x hm, hs⟩
  | case5 x x' cs hx hx' ih =>
    intro h
    rw [collapseWs, if_pos hx, if_neg hx'] at h
    rcases List.mem_cons.mp h with rfl | h
    · exact Or.inl rfl
    · rcases ih h with h | ⟨hm, hs⟩
      · exact Or.inl h
      · exact Or.inr ⟨List.mem_cons_of_mem x hm, hs⟩
  | case6 x x' cs hx ih =>
    intro h
    rw [collapseWs, if_neg hx] at h
    rcases List.mem_cons.mp h with rfl | h
    · exact Or.inr ⟨by simp, by simpa using hx⟩
    · rcases ih h with h | ⟨hm, hs⟩
      · exact Or.inl h
      · exact Or.inr ⟨List.mem_cons_of_mem x hm, hs⟩

theorem head_collapseWs (x : Char) (cs : List Char) (hx : ¬ pyIsSpace x = true) :
    (collapseWs (x :: cs)).head? = some x := by
  cases cs with
  | nil => rw [collapseWs, if_neg hx]; rfl
  | cons c' cs' => rw [collapseWs, if_neg hx]; rfl

theorem chain'_collapseWs :
    ∀ l : List Char, List.Chain' (fun a b => ¬(a = ' ' ∧ b = ' ')) (collapseWs l) := by
  intro l
  induction l using collapseWs.induct with
  | case1 => simp [collapseWs]
  | case2 x hx => rw [collapseWs, if_pos hx]; simp
  | case3 x hx => rw [collapseWs, if_neg hx]; simp
  | case4 x x' cs hx hx' ih => rw [collapseWs, if_pos hx, if_pos hx']; exact ih
  | case5 x x' cs hx hx' ih =>
    rw [collapseWs, if_pos hx, if_neg hx']
    rw [List.chain'_cons']
    refine ⟨?_, ih⟩
    intro y hy
    rw [head_collapseWs x' cs hx'] at hy
    obtain rfl : x' = y := by simpa using hy
    intro ⟨_, hsp⟩
    rw [hsp] at hx'
    exact hx' (by decide)
  | case6 x x' cs hx ih =>
    rw [collapseWs, if_neg hx]
    rw [List.chain'_cons']
    refine ⟨?_, ih⟩
    intro y _
    intro ⟨hsp, _⟩
    rw [hsp] at hx
    exact hx (by decide)

theorem pyStrip_isInfix (l : List Char) : pyStrip l <:+: l := by
  obtain ⟨t, ht⟩ := List.dropWhile_suffix (l := l) pyIsSpace
  obtain ⟨u, hu⟩ := List.rdropWhile_prefix pyIsSpace (l.dropWhile pyIsSpace)
  exact ⟨t, u, by rw [List.append_assoc, pyStrip, hu, ht]⟩

theorem head?_dropWhile_false {α : Type} (p : α → Bool) :
    ∀ (l : List α) (c : α), (l.dropWhile p).head? = some c → p c = false := by
  intro l
  induction l with
  | nil => intro c h; simp at h
  | cons x xs ih =>
    intro c h
    by_cases hx : p x
    · rw [List.dropWhile_cons_of_pos hx] at h
      exact ih c h
    · rw [List.dropWhile_cons_of_neg hx] at h
      obtain rfl : x = c := by simpa using h
      simpa using hx

theorem head_pyStrip_not_space (l : List Char) (c : Char)
    (h : (pyStrip l).head? = some c) : pyIsSpace c = false := by
  unfold pyStrip at h
  obtain ⟨u, hu⟩ := List.rdropWhile_prefix pyIsSpace (l.dropWhile pyIsSpace)
  have hne : (l.dropWhile pyIsSpace).rdropWhile pyIsSpace ≠ [] := by
    intro hnil
    rw [hnil] at h
    simp at h
  have hd : (l.dropWhile pyIsSpace).head? = some c := by
    rw [← hu, List.head?_append]
    rw [h]
    rfl
  exact head?_dropWhile_false pyIsSpace l c hd

theorem last_pyStrip_not_space (l : List Char) (c : Char)
    (h : (pyStrip l).getLast? = some c) : pyIsSpace c = false := by
  unfold pyStrip at h
  have hne : (l.dropWhile pyIsSpace).rdropWhile pyIsSpace ≠ [] := by
    intro hnil
    rw [hnil] at h
    simp at h
  have hlast := List.rdropWhile_last_not pyIsSpace (l.dropWhile pyIsSpace) hne
  rw [List.getLast?_eq_getLast _ hne] at h
  obtain rfl : _ = c := Option.some.inj h
  simpa using hlast

/--
C10: for every input string, the output of `normalize_filename` contains
only word characters that are not uppercase letters, spaces and hyphens;
it never contains two consecutive spaces; and its first and last
characters are never whitespace.
-/
theorem normalize_filename_shape (s : String) :
    (∀ c ∈ (normalize_filename s).data,
      (isWordChar c = true ∧ ¬(65 ≤ c.toNat ∧ c.toNat ≤ 90)) ∨ c = ' ' ∨ c = '-') ∧
    ¬ ([' ', ' '] <:+: (normalize_filename s).data) ∧
    (∀ c, (normalize_filename s).data.head? = some c → pyIsSpace c = false) ∧
    (∀ c, (normalize_filename s).data.getLast? = some c → pyIsSpace c = false) := by
  have hdata : (normalize_filename s).data =
      pyStrip (collapseWs (((splitextRoot s.data).map Char.toLower).filter
        (fun c => isWordChar c || pyIsSpace c || c = '-'))) := rfl
  refine ⟨?_, ?_, ?_, ?_⟩
  · intro c hc
    rw [hdata] at hc
    have hc2 : c ∈ collapseWs (((splitextRoot s.data).map Char.toLower).filter
        (fun c => isWordChar c || pyIsSpace c || c = '-')) :=
      (List.IsInfix.sublist (pyStrip_isInfix _)).subset hc
    rcases mem_collapseWs hc2 with rfl | ⟨hmem, hnspace⟩
    · exact Or.inr (Or.inl rfl)
    · obtain ⟨hin, hkeep⟩ := List.mem_filter.mp hmem
      have hnotupper : ¬(65 ≤ c.toNat ∧ c.toNat ≤ 90) := by
        obtain ⟨c0, _, rfl⟩ := List.mem_map.mp hin
        exact toLower_not_ascii_upper c0
      rcases Bool.or_eq_true _ _ |>.mp hkeep with h | h
      · rcases Bool.or_eq_true _ _ |>.mp h with h | h
        · exact Or.inl ⟨h, hnotupper⟩
        · rw [h] at hnspace; exact absurd hnspace (by simp)
      · exact Or.inr (Or.inr (by simpa using h))
  · intro hinf
    rw [hdata] at hinf
    have hchain := List.Chain'.infix
      (chain'_collapseWs (((splitextRoot s.data).map Char.toLower).filter
        (fun c => isWordChar c || pyIsSpace c || c = '-')))
      (List.IsInfix.trans hinf (pyStrip_isInfix _))
    have := (List.chain'_cons.mp hchain).1
    exact this ⟨rfl, rfl⟩
  · intro c hc
    rw [hdata] at hc
    exact head_pyStrip_not_space _ c hc
  · intro c hc
    rw [hdata] at hc
    exact last_pyStrip_not_space _ c hc

/-- C10 witness: the shape property instantiated at a messy concrete
filename. -/
theorem normalize_filename_shape_witness :
    (∀ c ∈ (normalize_filename "  A!!  b__9 -- C.mp3").data,
      (isWordChar c = true ∧ ¬(65 ≤ c.toNat ∧ c.toNat ≤ 90)) ∨ c = ' ' ∨ c = '-') ∧
    ¬ ([' ', ' '] <:+: (normalize_filename "  A!!  b__9 -- C.mp3").data) ∧
    (∀ c, (normalize_filename "  A!!  b__9 -- C.mp3").data.head? = some c →
      pyIsSpace c = false) ∧
    (∀ c, (normalize_filename "  A!!  b__9 -- C.mp3").data.getLast? = some c →
      pyIsSpace c = false) :=
  normalize_filename_shape "  A!!  b__9 -- C.mp3"

/--
C8: a dry run and a real run of `organize_podcasts` on identical input
report the same total, matched, unmatched and per-year counts; the dry run
leaves the filesystem untouched (no move, no directory creation) and its
move-phase counters stay at zero; only the moved count and the resulting
filesystem state may differ.
-/
theorem organize_dry_run_same_report (episodes : List Episode) (fs : FS)
    (moveOk : Int → String → Bool) (r1 r2 : Report) (fs1 fs2 : FS)
    (hdry : organize_podcasts episodes fs moveOk true = some (r1, fs1))
    (hreal : organize_podcasts episodes fs moveOk false = some (r2, fs2)) :
    r1.total = r2.total ∧ r1.matched = r2.matched ∧ r1.unmatched = r2.unmatched ∧
      r1.perYear = r2.perYear ∧ fs1 = fs ∧ r1.moved = 0 ∧ r1.skipped = 0 ∧ r1.errors = 0 := by
  by_cases hemp : episodes = []
  · rw [organize_podcasts, if_pos hemp] at hdry
    exact absurd hdry (by simp)
  · rw [organize_podcasts, if_neg hemp] at hdry hreal
    simp only [if_pos, if_neg] at hdry hreal
    obtain ⟨hr1, hfs1⟩ := Prod.mk.injEq .. ▸ Option.some.inj hdry
    obtain ⟨hr2, _⟩ := Prod.mk.injEq .. ▸ Option.some.inj hreal
    subst hfs1
    rw [← hr1, ← hr2]
    exact ⟨rfl, rfl, rfl, rfl, rfl, rfl, rfl, rfl⟩

/-- C8 witness: the dry/real agreement at a concrete one-file folder. -/
theorem organize_dry_run_same_report_witness :
    (⟨1, 1, 0, [(2020, 1)], 0, 0, 0⟩ : Report).total
        = (⟨1, 1, 0, [(2020, 1)], 1, 0, 0⟩ : Report).total ∧
      (⟨1, 1, 0, [(2020, 1)], 0, 0, 0⟩ : Report).matched
        = (⟨1, 1, 0, [(2020, 1)], 1, 0, 0⟩ : Report).matched ∧
      (⟨1, 1, 0, [(2020, 1)], 0, 0, 0⟩ : Report).unmatched
        = (⟨1, 1, 0, [(2020, 1)], 1, 0, 0⟩ : Report).unmatched ∧
      (⟨1, 1, 0, [(2020, 1)], 0, 0, 0⟩ : Report).perYear
        = (⟨1, 1, 0, [(2020, 1)], 1, 0, 0⟩ : Report).perYear ∧
      (⟨["[a].mp3"], [], []⟩ : FS) = ⟨["[a].mp3"], [], []⟩ ∧
      (⟨1, 1, 0, [(2020, 1)], 0, 0, 0⟩ : Report).moved = 0 ∧
      (⟨1, 1, 0, [(2020, 1)], 0, 0, 0⟩ : Report).skipped = 0 ∧
      (⟨1, 1, 0, [(2020, 1)], 0, 0, 0⟩ : Report).errors = 0 :=
  organize_dry_run_same_report [⟨"ta", 2020, "u/a", "a", ""⟩] ⟨["[a].mp3"], [], []⟩
    (fun _ _ => true) ⟨1, 1, 0, [(2020, 1)], 0, 0, 0⟩ ⟨1, 1, 0, [(2020, 1)], 1, 0, 0⟩
    ⟨["[a].mp3"], [], []⟩ ⟨[], [(2020, "[a].mp3")], [2020]⟩ (by decide) (by decide)

@[simp] theorem mkdirYear_src (fs : FS) (y : Int) : (mkdirYear fs y).src = fs.src := rfl

@[simp] theorem mkdirYear_dest (fs : FS) (y : Int) : (mkdirYear fs y).dest = fs.dest := rfl

/--
C7: when a matched file's destination name already exists in its year
folder, the move is skipped: the file stays in the source listing, the
existing destination entry is untouched (nothing is overwritten), the
event counts as a skip and not as an error, and the loop continues with
the next file, which is still moved.
-/
theorem organize_collision_skips (episodes : List Episode) (fs : FS)
    (moveOk : Int → String → Bool) (f1 f2 : String) (e1 e2 : Episode) (y : Int)
    (hne : episodes ≠ [])
    (hsrc : fs.src = [f1, f2])
    (hff : f1 ≠ f2)
    (ha1 : hasAudioExt f1 = true) (ha2 : hasAudioExt f2 = true)
    (hm1 : match_file_to_episode f1 episodes = some e1)
    (hm2 : match_file_to_episode f2 episodes = some e2)
    (hy1 : e1.year = y) (hy2 : e2.year = y)
    (hd1 : (y, f1) ∈ fs.dest) (hd2 : (y, f2) ∉ fs.dest)
    (hmo2 : moveOk y f2 = true) :
    organize_podcasts episodes fs moveOk false =
      some (⟨2, 2, 0, [(y, 2)], 1, 1, 0⟩,
        ⟨[f1], (y, f2) :: fs.dest, (mkdirYear fs y).dirs⟩) := by
  have hfiles : List.filter hasAudioExt [f1, f2] = [f1, f2] := by
    simp [List.filter_cons, ha1, ha2]
  have hpairs : matchedPairs episodes [f1, f2] = [(f1, e1), (f2, e2)] := by
    simp [matchedPairs, hm1, hm2]
  have hunm : unmatchedFiles episodes [f1, f2] = [] := by
    simp [unmatchedFiles, hm1, hm2]
  have hyears : sortedYears [(f1, e1), (f2, e2)] = [y] := by
    simp [sortedYears, hy1, hy2, List.dedup_cons_of_mem, insertYear]
  have hgroup : pairsForYear [(f1, e1), (f2, e2)] y = [(f1, e1), (f2, e2)] := by
    simp [pairsForYear, hy1, hy2]
  have herase : (mkdirYear fs y).src.erase f2 = [f1] := by
    rw [mkdirYear_src, hsrc]
    simp [List.erase_cons, hff]
  have hmove : moveGroups moveOk [(y, [(f1, e1), (f2, e2)])] (fs, 0, 0, 0) =
      (⟨[f1], (y, f2) :: fs.dest, (mkdirYear fs y).dirs⟩, 1, 1, 0) := by
    rw [moveGroups, moveFiles, movePair]
    rw [if_pos (by simpa using hd1)]
    rw [moveFiles, movePair]
    rw [if_neg (by simpa using hd2), if_pos hmo2]
    rw [moveFiles, moveGroups]
    rw [show ({ mkdirYear fs y with
          src := (mkdirYear fs y).src.erase f2,
          dest := (y, f2) :: (mkdirYear fs y).dest } : FS) =
        ⟨[f1], (y, f2) :: fs.dest, (mkdirYear fs y).dirs⟩ from by
      rw [← herase]; rfl]
  have hof : orgFiles fs = [f1, f2] := by rw [orgFiles, hsrc]; exact hfiles
  have hop : orgPairs episodes fs = [(f1, e1), (f2, e2)] := by
    rw [orgPairs, hof]; exact hpairs
  have hog : orgGroups episodes fs = [(y, [(f1, e1), (f2, e2)])] := by
    rw [orgGroups, hop, hyears]
    simp [hgroup]
  unfold organize_podcasts
  rw [if_neg hne]
  simp only [hof, hop, hog, hunm, List.map_cons, List.map_nil, hmove,
    Bool.false_eq_true, if_false, List.length_cons, List.length_nil]

/-- C7 witness: a concrete folder where the first file's name already
exists in the year folder and the second file still gets moved. -/
theorem organize_collision_skips_witness :
    organize_podcasts [⟨"ta", 2020, "u/a", "a", ""⟩, ⟨"tb", 2020, "u/b", "b", ""⟩]
        ⟨["[a].mp3", "[b].mp3"], [(2020, "[a].mp3")], []⟩ (fun _ _ => true) false =
      some (⟨2, 2, 0, [(2020, 2)], 1, 1, 0⟩,
        ⟨["[a].mp3"], (2020, "[b].mp3") :: [(2020, "[a].mp3")],
          (mkdirYear ⟨["[a].mp3", "[b].mp3"], [(2020, "[a].mp3")], []⟩ 2020).dirs⟩) :=
  organize_collision_skips _ _ _ "[a].mp3" "[b].mp3"
    ⟨"ta", 2020, "u/a", "a", ""⟩ ⟨"tb", 2020, "u/b", "b", ""⟩ 2020
    (by decide) rfl (by decide) (by decide) (by decide) (by decide) (by decide)
    rfl rfl (by decide) (by decide) rfl

/--
C9: an OS-level failure while moving one file is caught and counted as an
error in the report, and does not abort the batch: the failing file stays
in the source listing and the next file is still attempted and moved.
-/
theorem organize_move_error_continues (episodes : List Episode) (fs : FS)
    (moveOk : Int → String → Bool) (f1 f2 : String) (e1 e2 : Episode) (y : Int)
    (hne : episodes ≠ [])
    (hsrc : fs.src = [f1, f2])
    (hff : f1 ≠ f2)
    (ha1 : hasAudioExt f1 = true) (ha2 : hasAudioExt f2 = true)
    (hm1 : match_file_to_episode f1 episodes = some e1)
    (hm2 : match_file_to_episode f2 episodes = some e2)
    (hy1 : e1.year = y) (hy2 : e2.year = y)
    (hd1 : (y, f1) ∉ fs.dest) (hd2 : (y, f2) ∉ fs.dest)
    (hmo1 : moveOk y f1 = false) (hmo2 : moveOk y f2 = true) :
    organize_podcasts episodes fs moveOk false =
      some (⟨2, 2, 0, [(y, 2)], 1, 0, 1⟩,
        ⟨[f1], (y, f2) :: fs.dest, (mkdirYear fs y).dirs⟩) := by
  have hfiles : List.filter hasAudioExt [f1, f2] = [f1, f2] := by
    simp [List.filter_cons, ha1, ha2]
  have hpairs : matchedPairs episodes [f1, f2] = [(f1, e1), (f2, e2)] := by
    simp [matchedPairs, hm1, hm2]
  have hunm : unmatchedFiles episodes [f1, f2] = [] := by
    simp [unmatchedFiles, hm1, hm2]
  have hyears : sortedYears [(f1, e1), (f2, e2)] = [y] := by
    simp [sortedYears, hy1, hy2, List.dedup_cons_of_mem, insertYear]
  have hgroup : pairsForYear [(f1, e1), (f2, e2)] y = [(f1, e1), (f2, e2)] := by
    simp [pairsForYear, hy1, hy2]
  have herase : (mkdirYear fs y).src.erase f2 = [f1] := by
    rw [mkdirYear_src, hsrc]
    simp [List.erase_cons, hff]
  have hmove : moveGroups moveOk [(y, [(f1, e1), (f2, e2)])] (fs, 0, 0, 0) =
      (⟨[f1], (y, f2) :: fs.dest, (mkdirYear fs y).dirs⟩, 1, 0, 1) := by
    rw [moveGroups, moveFiles, movePair]
    rw [if_neg (by simpa using hd1), if_neg (by simp [hmo1])]
    rw [moveFiles, movePair]
    rw [if_neg (by simpa using hd2), if_pos hmo2]
    rw [moveFiles, moveGroups]
    rw [show ({ mkdirYear fs y with
          src := (mkdirYear fs y).src.erase f2,
          dest := (y, f2) :: (mkdirYear fs y).dest } : FS) =
        ⟨[f1], (y, f2) :: fs.dest, (mkdirYear fs y).dirs⟩ from by
      rw [← herase]; rfl]
  have hof : orgFiles fs = [f1, f2] := by rw [orgFiles, hsrc]; exact hfiles
  have hop : orgPairs episodes fs = [(f1, e1), (f2, e2)] := by
    rw [orgPairs, hof]; exact hpairs
  have hog : orgGroups episodes fs = [(y, [(f1, e1), (f2, e2)])] := by
    rw [orgGroups, hop, hyears]
    simp [hgroup]
  unfold organize_podcasts
  rw [if_neg hne]
  simp only [hof, hop, hog, hunm, List.map_cons, List.map_nil, hmove,
    Bool.false_eq_true, if_false, List.length_cons, List.length_nil]

/-- C9 witness: the first file's move fails at the OS level, the second is
still moved, and the report counts one error and one move. -/
theorem organize_move_error_continues_witness :
    organize_podcasts [⟨"ta", 2020, "u/a", "a", ""⟩, ⟨"tb", 2020, "u/b", "b", ""⟩]
        ⟨["[a].mp3", "[b].mp3"], [], []⟩ (fun _ f => f ≠ "[a].mp3") false =
      some (⟨2, 2, 0, [(2020, 2)], 1, 0, 1⟩,
        ⟨["[a].mp3"], (2020, "[b].mp3") :: [],
          (mkdirYear ⟨["[a].mp3", "[b].mp3"], [], []⟩ 2020).dirs⟩) :=
  organize_move_error_continues _ _ _ "[a].mp3" "[b].mp3"
    ⟨"ta", 2020, "u/a", "a", ""⟩ ⟨"tb", 2020, "u/b", "b", ""⟩ 2020
    (by decide) rfl (by decide) (by decide) (by decide) (by decide) (by decide)
    rfl rfl (by decide) (by decide) (by decide) (by decide)

/-- A file the rerun cannot move from state `st`: already gone from the
source, blocked by an occupied destination, or destined to fail again. -/
def stuckFile (moveOk : Int → String → Bool) (y : Int) (f : String)
    (st : FS × Nat × Nat × Nat) : Prop :=
  f ∉ st.1.src ∨ (y, f) ∈ st.1.dest ∨ moveOk y f = false

theorem movePair_src_sublist (moveOk : Int → String → Bool) (y : Int)
    (st : FS × Nat × Nat × Nat) (p : String × Episode) :
    List.Sublist (movePair moveOk y st p).1.src st.1.src := by
  unfold movePair
  by_cases h1 : (y, p.1) ∈ st.1.dest
  · rw [if_pos h1]
  · rw [if_neg h1]
    by_cases h2 : moveOk y p.1
    · rw [if_pos h2]
      exact List.erase_sublist p.1 st.1.src
    · rw [if_neg h2]

theorem movePair_dest_subset (moveOk : Int → String → Bool) (y : Int)
    (st : FS × Nat × Nat × Nat) (p : String × Episode) :
    st.1.dest ⊆ (movePair moveOk y st p).1.dest := by
  unfold movePair
  by_cases h1 : (y, p.1) ∈ st.1.dest
  · rw [if_pos h1]
    exact fun x hx => hx
  · rw [if_neg h1]
    by_cases h2 : moveOk y p.1
    · rw [if_pos h2]
      exact fun x hx => List.mem_cons_of_mem _ hx
    · rw [if_neg h2]
      exact fun x hx => hx

theorem movePair_dirs_eq (moveOk : Int → String → Bool) (y : Int)
    (st : FS × Nat × Nat × Nat) (p : String × Episode) :
    (movePair moveOk y st p).1.dirs = st.1.dirs := by
  unfold movePair
  by_cases h1 : (y, p.1) ∈ st.1.dest
  · rw [if_pos h1]
  · rw [if_neg h1]
    by_cases h2 : moveOk y p.1
    · rw [if_pos h2]
    · rw [if_neg h2]

theorem movePair_stuck_self (moveOk : Int → String → Bool) (y : Int)
    (st : FS × Nat × Nat × Nat) (p : String × Episode) (hnd : st.1.src.Nodup) :
    stuckFile moveOk y p.1 (movePair moveOk y st p) := by
  unfold movePair stuckFile
  by_cases h1 : (y, p.1) ∈ st.1.dest
  · rw [if_pos h1]
    exact Or.inr (Or.inl h1)
  · rw [if_neg h1]
    by_cases h2 : moveOk y p.1
    · rw [if_pos h2]
      refine Or.inl (fun hmem => ?_)
      exact ((List.Nodup.mem_erase_iff hnd).mp hmem).1 rfl
    · rw [if_neg h2]
      exact Or.inr (Or.inr (by simpa using h2))

theorem movePair_stuck_mono (moveOk : Int → String → Bool) (y y' : Int) (f : String)
    (st : FS × Nat × Nat × Nat) (p : String × Episode)
    (h : stuckFile moveOk y f st) : stuckFile moveOk y f (movePair moveOk y' st p) := by
  rcases h with h | h | h
  · exact Or.inl (fun hmem => h ((movePair_src_sublist moveOk y' st p).subset hmem))
  · exact Or.inr (Or.inl (movePair_dest_subset moveOk y' st p h))
  · exact Or.inr (Or.inr h)

theorem movePair_moved_dest (moveOk : Int → String → Bool) (y : Int)
    (st : FS × Nat × Nat × Nat) (p : String × Episode) (f : String)
    (hin : f ∈ st.1.src) (hout : f ∉ (movePair moveOk y st p).1.src) :
    (y, f) ∈ (movePair moveOk y st p).1.dest := by
  unfold movePair at *
  by_cases h1 : (y, p.1) ∈ st.1.dest
  · rw [if_pos h1] at hout ⊢
    exact absurd hin hout
  · rw [if_neg h1] at hout ⊢
    by_cases h2 : moveOk y p.1
    · rw [if_pos h2] at hout ⊢
      have : f = p.1 := by
        by_contra hne
        exact hout ((List.mem_erase_of_ne hne).mpr hin)
      rw [this]
      exact List.mem_cons_self _ _
    · rw [if_neg h2] at hout ⊢
      exact absurd hin hout

theorem moveFiles_src_sublist (moveOk : Int → String → Bool) (y : Int) :
    ∀ (ps : List (String × Episode)) (st : FS × Nat × Nat × Nat),
      List.Sublist (moveFiles moveOk y ps st).1.src st.1.src := by
  intro ps
  induction ps with
  | nil => intro st; exact List.Sublist.refl _
  | cons p ps ih =>
    intro st
    rw [moveFiles]
    exact (ih (movePair moveOk y st p)).trans (movePair_src_sublist moveOk y st p)

theorem moveFiles_dest_subset (moveOk : Int → String → Bool) (y : Int) :
    ∀ (ps : List (String × Episode)) (st : FS × Nat × Nat × Nat),
      st.1.dest ⊆ (moveFiles moveOk y ps st).1.dest := by
  intro ps
  induction ps with
  | nil => intro st; exact fun x hx => hx
  | cons p ps ih =>
    intro st
    rw [moveFiles]
    exact fun x hx => ih (movePair moveOk y st p) (movePair_dest_subset moveOk y st p hx)

theorem moveFiles_dirs_eq (moveOk : Int → String → Bool) (y : Int) :
    ∀ (ps : List (String × Episode)) (st : FS × Nat × Nat × Nat),
      (moveFiles moveOk y ps st).1.dirs = st.1.dirs := by
  intro ps
  induction ps with
  | nil => intro st; rfl
  | cons p ps ih =>
    intro st
    rw [moveFiles, ih, movePair_dirs_eq]

theorem moveFiles_stuck_mono (moveOk : Int → String → Bool) (y y' : Int) (f : String) :
    ∀ (ps : List (String × Episode)) (st : FS × Nat × Nat × Nat),
      stuckFile moveOk y f st → stuckFile moveOk y f (moveFiles moveOk y' ps st) := by
  intro ps
  induction ps with
  | nil => intro st h; exact h
  | cons p ps ih =>
    intro st h
    rw [moveFiles]
    exact ih _ (movePair_stuck_mono moveOk y y' f st p h)

theorem moveFiles_stuck_all (moveOk : Int → String → Bool) (y : Int) :
    ∀ (ps : List (String × Episode)) (st : FS × Nat × Nat × Nat), st.1.src.Nodup →
      ∀ p ∈ ps, stuckFile moveOk y p.1 (moveFiles moveOk y ps st) := by
  intro ps
  induction ps with
  | nil => intro st _ p hp; simp at hp
  | cons q qs ih =>
    intro st hnd p hp
    rw [moveFiles]
    rcases List.mem_cons.mp hp with rfl | hp
    · exact moveFiles_stuck_mono moveOk y y p.1 qs _
        (movePair_stuck_self moveOk y st p hnd)
    · exact ih (movePair moveOk y st q)
        (hnd.sublist (movePair_src_sublist moveOk y st q)) p hp

theorem moveFiles_moved_dest (moveOk : Int → String → Bool) (y : Int) :
    ∀ (ps : List (String × Episode)) (st : FS × Nat × Nat × Nat) (f : String),
      f ∈ st.1.src → f ∉ (moveFiles moveOk y ps st).1.src →
      (y, f) ∈ (moveFiles moveOk y ps st).1.dest := by
  intro ps
  induction ps with
  | nil => intro st f hin hout; exact absurd hin hout
  | cons p ps ih =>
    intro st f hin hout
    rw [moveFiles] at hout ⊢
    by_cases hmid : f ∈ (movePair moveOk y st p).1.src
    · exact ih _ f hmid hout
    · exact moveFiles_dest_subset moveOk y ps _ (movePair_moved_dest moveOk y st p f hin hmid)

theorem mkdirYear_mem_self (fs : FS) (y : Int) : y ∈ (mkdirYear fs y).dirs := by
  unfold mkdirYear
  by_cases h : y ∈ fs.dirs
  · rw [if_pos h]; exact h
  · rw [if_neg h]; exact List.mem_cons_self _ _

theorem mkdirYear_dirs_subset (fs : FS) (y : Int) : fs.dirs ⊆ (mkdirYear fs y).dirs := by
  unfold mkdirYear
  by_cases h : y ∈ fs.dirs
  · rw [if_pos h]
    exact fun x hx => hx
  · rw [if_neg h]
    exact fun x hx => List.mem_cons_of_mem _ hx

theorem mkdirYear_of_mem (fs : FS) (y : Int) (h : y ∈ fs.dirs) : mkdirYear fs y = fs := by
  unfold mkdirYear
  rw [if_pos h]

theorem moveGroups_src_sublist (moveOk : Int → String → Bool) :
    ∀ (groups : List (Int × List (String × Episode))) (st : FS × Nat × Nat × Nat),
      List.Sublist (moveGroups moveOk groups st).1.src st.1.src := by
  intro groups
  induction groups with
  | nil => intro st; exact List.Sublist.refl _
  | cons g gs ih =>
    intro st
    rcases g with ⟨y, ps⟩
    rw [moveGroups]
    exact ((ih _).trans (moveFiles_src_sublist moveOk y ps (mkdirYear st.1 y, st.2)))

theorem moveGroups_dest_subset (moveOk : Int → String → Bool) :
    ∀ (groups : List (Int × List (String × Episode))) (st : FS × Nat × Nat × Nat),
      st.1.dest ⊆ (moveGroups moveOk groups st).1.dest := by
  intro groups
  induction groups with
  | nil => intro st; exact fun x hx => hx
  | cons g gs ih =>
    intro st
    rcases g with ⟨y, ps⟩
    rw [moveGroups]
    exact fun x hx => ih _ (moveFiles_dest_subset moveOk y ps (mkdirYear st.1 y, st.2) hx)

theorem moveGroups_dirs_subset (moveOk : Int → String → Bool) :
    ∀ (groups : List (Int × List (String × Episode))) (st : FS × Nat × Nat × Nat),
      st.1.dirs ⊆ (moveGroups moveOk groups st).1.dirs := by
  intro groups
  induction groups with
  | nil => intro st; exact fun x hx => hx
  | cons g gs ih =>
    intro st
    rcases g with ⟨y, ps⟩
    rw [moveGroups]
    intro x hx
    apply ih
    rw [moveFiles_dirs_eq]
    exact mkdirYear_dirs_subset st.1 y hx

theorem moveGroups_stuck_mono (moveOk : Int → String → Bool) (y : Int) (f : String) :
    ∀ (groups : List (Int × List (String × Episode))) (st : FS × Nat × Nat × Nat),
      stuckFile moveOk y f st → stuckFile moveOk y f (moveGroups moveOk groups st) := by
  intro groups
  induction groups with
  | nil => intro st h; exact h
  | cons g gs ih =>
    intro st h
    rcases g with ⟨y', ps⟩
    rw [moveGroups]
    apply ih
    apply moveFiles_stuck_mono
    rcases h with h | h | h
    · exact Or.inl h
    · exact Or.inr (Or.inl h)
    · exact Or.inr (Or.inr h)

theorem moveGroups_stuck_all (moveOk : Int → String → Bool) :
    ∀ (groups : List (Int × List (String × Episode))) (st : FS × Nat × Nat × Nat),
      st.1.src.Nodup →
      ∀ g ∈ groups, ∀ p ∈ g.2, stuckFile moveOk g.1 p.1 (moveGroups moveOk groups st) := by
  intro groups
  induction groups with
  | nil => intro st _ g hg; simp at hg
  | cons g0 gs ih =>
    intro st hnd g hg p hp
    rcases g0 with ⟨y0, ps0⟩
    rw [moveGroups]
    rcases List.mem_cons.mp hg with rfl | hg
    · apply moveGroups_stuck_mono
      exact moveFiles_stuck_all moveOk y0 ps0 (mkdirYear st.1 y0, st.2) hnd p hp
    · exact ih (moveFiles moveOk y0 ps0 (mkdirYear st.1 y0, st.2))
        (hnd.sublist (moveFiles_src_sublist moveOk y0 ps0 (mkdirYear st.1 y0, st.2))) g hg p hp

theorem moveGroups_dirs_all (moveOk : Int → String → Bool) :
    ∀ (groups : List (Int × List (String × Episode))) (st : FS × Nat × Nat × Nat),
      ∀ g ∈ groups, g.1 ∈ (moveGroups moveOk groups st).1.dirs := by
  intro groups
  induction groups with
  | nil => intro st g hg; simp at hg
  | cons g0 gs ih =>
    intro st g hg
    rcases g0 with ⟨y0, ps0⟩
    rw [moveGroups]
    rcases List.mem_cons.mp hg with rfl | hg
    · apply moveGroups_dirs_subset
      rw [moveFiles_dirs_eq]
      exact mkdirYear_mem_self st.1 y0
    · exact ih _ g hg

theorem moveGroups_moved_dest (moveOk : Int → String → Bool) :
    ∀ (groups : List (Int × List (String × Episode))) (st : FS × Nat × Nat × Nat) (f : String),
      f ∈ st.1.src → f ∉ (moveGroups moveOk groups st).1.src →
      ∃ y, (y, f) ∈ (moveGroups moveOk groups st).1.dest := by
  intro groups
  induction groups with
  | nil => intro st f hin hout; exact absurd hin hout
  | cons g0 gs ih =>
    intro st f hin hout
    rcases g0 with ⟨y0, ps0⟩
    rw [moveGroups] at hout ⊢
    by_cases hmid : f ∈ (moveFiles moveOk y0 ps0 (mkdirYear st.1 y0, st.2)).1.src
    · exact ih _ f hmid hout
    · refine ⟨y0, moveGroups_dest_subset moveOk gs _ ?_⟩
      exact moveFiles_moved_dest moveOk y0 ps0 (mkdirYear st.1 y0, st.2) f hin hmid

theorem moveFiles_noop (moveOk : Int → String → Bool) (y : Int) :
    ∀ (ps : List (String × Episode)) (st : FS × Nat × Nat × Nat),
      (∀ p ∈ ps, (y, p.1) ∈ st.1.dest ∨ moveOk y p.1 = false) →
      (moveFiles moveOk y ps st).1 = st.1 ∧ (moveFiles moveOk y ps st).2.1 = st.2.1 := by
  intro ps
  induction ps with
  | nil => intro st _; exact ⟨rfl, rfl⟩
  | cons p ps ih =>
    intro st hall
    rw [moveFiles]
    have hp := hall p (List.mem_cons_self p ps)
    rcases hp with hdest | hfail
    · have hstep : movePair moveOk y st p = (st.1, st.2.1, st.2.2.1 + 1, st.2.2.2) := by
        unfold movePair
        rw [if_pos hdest]
      rw [hstep]
      exact ih _ (fun q hq => hall q (List.mem_cons_of_mem p hq))
    · by_cases hdest : (y, p.1) ∈ st.1.dest
      · have hstep : movePair moveOk y st p = (st.1, st.2.1, st.2.2.1 + 1, st.2.2.2) := by
          unfold movePair
          rw [if_pos hdest]
        rw [hstep]
        exact ih _ (fun q hq => hall q (List.mem_cons_of_mem p hq))
      · have hstep : movePair moveOk y st p = (st.1, st.2.1, st.2.2.1, st.2.2.2 + 1) := by
          unfold movePair
          rw [if_neg hdest, if_neg (by simp [hfail])]
        rw [hstep]
        exact ih _ (fun q hq => hall q (List.mem_cons_of_mem p hq))

theorem moveGroups_noop (moveOk : Int → String → Bool) :
    ∀ (groups : List (Int × List (String × Episode))) (st : FS × Nat × Nat × Nat),
      (∀ g ∈ groups, g.1 ∈ st.1.dirs ∧
        ∀ p ∈ g.2, (g.1, p.1) ∈ st.1.dest ∨ moveOk g.1 p.1 = false) →
      (moveGroups moveOk groups st).1 = st.1 ∧ (moveGroups moveOk groups st).2.1 = st.2.1 := by
  intro groups
  induction groups with
  | nil => intro st _; exact ⟨rfl, rfl⟩
  | cons g0 gs ih =>
    intro st hall
    rcases g0 with ⟨y0, ps0⟩
    rw [moveGroups]
    obtain ⟨hdir, hps⟩ := hall (y0, ps0) (List.mem_cons_self _ _)
    rw [mkdirYear_of_mem st.1 y0 hdir]
    have hst : ((st.1, st.2) : FS × Nat × Nat × Nat) = st := rfl
    rw [hst]
    obtain ⟨hfs, hmoved⟩ := moveFiles_noop moveOk y0 ps0 st hps
    have hrest := ih (moveFiles moveOk y0 ps0 st)
      (fun g hg => by
        rw [hfs]
        exact hall g (List.mem_cons_of_mem _ hg))
    refine ⟨?_, ?_⟩
    · rw [hrest.1, hfs]
    · rw [hrest.2, hmoved]

theorem mem_matchedPairs (episodes : List Episode) (files : List String)
    (f : String) (e : Episode) :
    (f, e) ∈ matchedPairs episodes files ↔
      f ∈ files ∧ match_file_to_episode f episodes = some e := by
  unfold matchedPairs
  rw [List.mem_filterMap]
  constructor
  · rintro ⟨a, ha, heq⟩
    rcases Option.map_eq_some'.mp heq with ⟨x, hx, hpair⟩
    obtain ⟨rfl, rfl⟩ := Prod.mk.injEq .. ▸ hpair
    exact ⟨ha, hx⟩
  · rintro ⟨hf, hm⟩
    exact ⟨f, hf, by rw [hm]; rfl⟩

theorem mem_orgPairs (episodes : List Episode) (fs : FS) (f : String) (e : Episode) :
    (f, e) ∈ orgPairs episodes fs ↔
      f ∈ fs.src ∧ hasAudioExt f = true ∧ match_file_to_episode f episodes = some e := by
  rw [orgPairs, mem_matchedPairs, orgFiles, List.mem_filter]
  tauto

theorem mem_insertYear (y z : Int) : ∀ l : List Int, z ∈ insertYear y l ↔ z = y ∨ z ∈ l := by
  intro l
  induction l with
  | nil => simp [insertYear]
  | cons w ws ih =>
    rw [insertYear]
    by_cases h : y ≤ w
    · rw [if_pos h]
      simp
    · rw [if_neg h]
      simp only [List.mem_cons, ih]
      tauto

theorem mem_sortedYears (pairs : List (String × Episode)) (y : Int) :
    y ∈ sortedYears pairs ↔ ∃ p ∈ pairs, p.2.year = y := by
  unfold sortedYears
  have hfold : ∀ l : List Int, y ∈ l.foldr insertYear [] ↔ y ∈ l := by
    intro l
    induction l with
    | nil => simp
    | cons w ws ih => rw [List.foldr_cons, mem_insertYear, ih, List.mem_cons]
  rw [hfold, List.mem_dedup, List.mem_map]

theorem mem_group_of_orgGroups (episodes : List Episode) (fs : FS)
    (g : Int × List (String × Episode)) (hg : g ∈ orgGroups episodes fs) :
    ∀ p ∈ g.2, p ∈ orgPairs episodes fs ∧ p.2.year = g.1 := by
  unfold orgGroups at hg
  rcases List.mem_map.mp hg with ⟨y, _, rfl⟩
  intro p hp
  obtain ⟨hp1, hp2⟩ := List.mem_filter.mp hp
  exact ⟨hp1, by simpa using hp2⟩

theorem group_mem_orgGroups_of_pair (episodes : List Episode) (fs : FS)
    (p : String × Episode) (hp : p ∈ orgPairs episodes fs) :
    (p.2.year, pairsForYear (orgPairs episodes fs) p.2.year) ∈ orgGroups episodes fs := by
  unfold orgGroups
  exact List.mem_map_of_mem _ ((mem_sortedYears _ _).mpr ⟨p, hp, rfl⟩)

theorem pair_mem_own_group (pairs : List (String × Episode)) (p : String × Episode)
    (hp : p ∈ pairs) : p ∈ pairsForYear pairs p.2.year :=
  List.mem_filter.mpr ⟨hp, by simp⟩

/-- The shape of a non-dry run on a non-empty feed. -/
theorem organize_real_eq (episodes : List Episode) (fs : FS) (moveOk : Int → String → Bool)
    (hne : episodes ≠ []) :
    organize_podcasts episodes fs moveOk false =
      some ({ total := (orgFiles fs).length
              matched := (orgFiles fs).length - (unmatchedFiles episodes (orgFiles fs)).length
              unmatched := (unmatchedFiles episodes (orgFiles fs)).length
              perYear := (orgGroups episodes fs).map (fun g => (g.1, g.2.length))
              moved := (moveGroups moveOk (orgGroups episodes fs) (fs, 0, 0, 0)).2.1
              skipped := (moveGroups moveOk (orgGroups episodes fs) (fs, 0, 0, 0)).2.2.1
              errors := (moveGroups moveOk (orgGroups episodes fs) (fs, 0, 0, 0)).2.2.2 },
        (moveGroups moveOk (orgGroups episodes fs) (fs, 0, 0, 0)).1) := by
  unfold organize_podcasts
  rw [if_neg hne]
  rfl

/--
C6: the Reconciler is idempotent across runs.  After a completed real run,
a second real run with the same feed on the resulting directory moves zero
files and leaves the filesystem exactly as the first run left it, and
every file the first run moved out of the source listing now resides in a
year subdirectory.
-/
theorem organize_rerun_noop (episodes : List Episode) (fs : FS) (moveOk : Int → String → Bool)
    (r1 : Report) (fs1 : FS)
    (hnodup : fs.src.Nodup)
    (h1 : organize_podcasts episodes fs moveOk false = some (r1, fs1)) :
    (∃ r2, organize_podcasts episodes fs1 moveOk false = some (r2, fs1) ∧ r2.moved = 0) ∧
    (∀ f ∈ fs.src, f ∉ fs1.src → ∃ y, (y, f) ∈ fs1.dest) := by
  have hne : episodes ≠ [] := by
    intro h
    rw [organize_podcasts, if_pos h] at h1
    exact absurd h1 (by simp)
  have h1' := h1
  rw [organize_real_eq episodes fs moveOk hne] at h1'
  have hfs1 : (moveGroups moveOk (orgGroups episodes fs) (fs, 0, 0, 0)).1 = fs1 :=
    congrArg Prod.snd (Option.some.inj h1')
  have hsub : List.Sublist fs1.src fs.src := by
    rw [← hfs1]
    exact moveGroups_src_sublist moveOk _ _
  have hmoved : ∀ f ∈ fs.src, f ∉ fs1.src → ∃ y, (y, f) ∈ fs1.dest := by
    intro f hin hout
    rw [← hfs1] at hout ⊢
    exact moveGroups_moved_dest moveOk _ _ f hin hout
  refine ⟨?_, hmoved⟩
  have hstuck : ∀ g ∈ orgGroups episodes fs, ∀ p ∈ g.2,
      stuckFile moveOk g.1 p.1 (moveGroups moveOk (orgGroups episodes fs) (fs, 0, 0, 0)) :=
    moveGroups_stuck_all moveOk _ _ hnodup
  have hdirs : ∀ g ∈ orgGroups episodes fs, g.1 ∈ fs1.dirs := by
    intro g hg
    rw [← hfs1]
    exact moveGroups_dirs_all moveOk _ _ g hg
  have hpair21 : ∀ p : String × Episode, p ∈ orgPairs episodes fs1 → p ∈ orgPairs episodes fs := by
    rintro ⟨f, e⟩ hp
    obtain ⟨hsrc, haud, hm⟩ := (mem_orgPairs episodes fs1 f e).mp hp
    exact (mem_orgPairs episodes fs f e).mpr ⟨hsub.subset hsrc, haud, hm⟩
  have hnoop := moveGroups_noop moveOk (orgGroups episodes fs1) (fs1, 0, 0, 0) (by
    intro g hg
    have hgparts := mem_group_of_orgGroups episodes fs1 g hg
    constructor
    · obtain ⟨y, hy, rfl⟩ := List.mem_map.mp hg
      obtain ⟨p, hp, hpy⟩ := (mem_sortedYears _ _).mp hy
      have hp1 := hpair21 p hp
      have := hdirs _ (group_mem_orgGroups_of_pair episodes fs p hp1)
      rw [← hpy]
      exact this
    · intro p hp
      obtain ⟨hp2, hpy⟩ := hgparts p hp
      have hp1 := hpair21 p hp2
      have hstuckp := hstuck _ (group_mem_orgGroups_of_pair episodes fs p hp1) p
        (pair_mem_own_group _ p hp1)
      rcases hstuckp with hout | hdest | hfail
      · exfalso
        apply hout
        rw [hfs1]
        rcases p with ⟨f, e⟩
        have := ((mem_orgPairs episodes fs1 f e).mp hp2).1
        exact this
      · rw [← hpy]
        rw [hfs1] at hdest
        exact Or.inl hdest
      · rw [← hpy]
        exact Or.inr hfail)
  rw [organize_real_eq episodes fs1 moveOk hne]
  refine ⟨_, by rw [hnoop.1], hnoop.2⟩

/-- C6 witness: a one-file folder organized once; the rerun on the result
moves nothing and the moved file sits in its year folder. -/
theorem organize_rerun_noop_witness :
    (∃ r2, organize_podcasts [⟨"ta", 2020, "u/a", "a", ""⟩] ⟨[], [(2020, "[a].mp3")], [2020]⟩
        (fun _ _ => true) false = some (r2, ⟨[], [(2020, "[a].mp3")], [2020]⟩) ∧ r2.moved = 0) ∧
    (∀ f ∈ (⟨["[a].mp3"], [], []⟩ : FS).src, f ∉ (⟨[], [(2020, "[a].mp3")], [2020]⟩ : FS).src →
      ∃ y, (y, f) ∈ (⟨[], [(2020, "[a].mp3")], [2020]⟩ : FS).dest) :=
  organize_rerun_noop [⟨"ta", 2020, "u/a", "a", ""⟩] ⟨["[a].mp3"], [], []⟩ (fun _ _ => true)
    ⟨1, 1, 0, [(2020, 1)], 1, 0, 0⟩ ⟨[], [(2020, "[a].mp3")], [2020]⟩ (by decide) (by decide)
